import Mathlib

/-!
Verification development for the cargo-quad-apk build back end.

The definitions below are shallow embeddings of the Rust functions in
src/ops/build.rs, src/ops/build/compile.rs, src/ops/build/util.rs and
src/ops/build/preprocessor.rs.  Paths are modelled as strings with the

forward slash as separator, the file system and external tools are
modelled as explicit function parameters, and fallible code returns
Except.
-/

namespace CargoQuadApk

/-! ## String helpers modelling Rust str operations -/

/-- Rust str::starts_with on character lists. -/
def isPrefixChars : List Char → List Char → Bool
  | [], _ => true
  | _ :: _, [] => false
  | a :: as, b :: bs => a == b && isPrefixChars as bs

/-- Rust str::contains (substring search) on character lists. -/
def containsChars (pat : List Char) : List Char → Bool
  | [] => pat.isEmpty
  | c :: rest => isPrefixChars pat (c :: rest) || containsChars pat rest

/-- Rust str::starts_with. -/
def strStartsWith (s pat : String) : Bool := isPrefixChars pat.data s.data

/-- Rust str::contains. -/
def strContains (s pat : String) : Bool := containsChars pat.data s.data

/-- Number of (possibly overlapping) occurrences of a pattern in a character list. -/
def countSub (pat : List Char) : List Char → Nat
  | [] => 0
  | c :: rest => (if isPrefixChars pat (c :: rest) then 1 else 0) + countSub pat rest

/-- Number of occurrences of a substring in a string. -/
def countOccurrences (s pat : String) : Nat := countSub pat.data s.data

/-- One replacement pass, fuelled by the length of the subject.
Models Rust str::replace (leftmost, non-overlapping). -/
def replaceCharsAux (pat rep : List Char) : Nat → List Char → List Char
  | 0, s => s
  | Nat.succ _, [] => []
  | Nat.succ n, c :: rest =>
    if pat ≠ [] ∧ isPrefixChars pat (c :: rest) then
      rep ++ replaceCharsAux pat rep n (List.drop (pat.length - 1) rest)
    else
      c :: replaceCharsAux pat rep n rest

/-- Rust str::replace. -/
def rustReplace (s pat rep : String) : String :=
  String.mk (replaceCharsAux pat.data rep.data s.data.length s.data)

/-! ## Glue code templater (src/ops/build/preprocessor.rs) -/

/-- ClassInject from preprocessor.rs: the three lifecycle accumulators and the body. -/
structure ClassInject where
  body : String
  on_resume : String
  on_pause : String
  on_create : String
deriving DecidableEq, Repr

/-- Inject from preprocessor.rs. -/
structure Inject where
  imports : String
  main_activity : ClassInject
deriving DecidableEq, Repr

/-- Default::default() for Inject: all accumulators empty. -/
def injectDefault : Inject := ⟨"", ⟨"", "", "", ""⟩⟩

/-- Inject::add from preprocessor.rs: push_str of every section of other onto self. -/
def Inject.add (self other : Inject) : Inject :=
  { imports := self.imports ++ other.imports
    main_activity :=
      { body := self.main_activity.body ++ other.main_activity.body
        on_resume := self.main_activity.on_resume ++ other.main_activity.on_resume
        on_pause := self.main_activity.on_pause ++ other.main_activity.on_pause
        on_create := self.main_activity.on_create ++ other.main_activity.on_create } }

/-- Identifier for the five sections of an inject template. -/
inductive SectionId
  | imports
  | body
  | onCreate
  | onResume
  | onPause
deriving DecidableEq, Repr

/-- Read one section accumulator of an Inject. -/
def getSection (i : Inject) : SectionId → String
  | .imports => i.imports
  | .body => i.main_activity.body
  | .onCreate => i.main_activity.on_create
  | .onResume => i.main_activity.on_resume
  | .onPause => i.main_activity.on_pause

/-- Append text to one section accumulator of an Inject. -/
def appendSection (i : Inject) : SectionId → String → Inject
  | .imports, t => { i with imports := i.imports ++ t }
  | .body, t => { i with main_activity := { i.main_activity with body := i.main_activity.body ++ t } }
  | .onCreate, t => { i with main_activity := { i.main_activity with on_create := i.main_activity.on_create ++ t } }
  | .onResume, t => { i with main_activity := { i.main_activity with on_resume := i.main_activity.on_resume ++ t } }
  | .onPause, t => { i with main_activity := { i.main_activity with on_pause := i.main_activity.on_pause ++ t } }

/-- One iteration of the line loop of parse_inject_template.  The state is the
currently open section (the Option of the mutable target reference) together
with the accumulated Inject; the asserts of the Rust code become errors. -/
def injectStep (st : Option SectionId × Inject) (line : String) :
    Except Unit (Option SectionId × Inject) :=
  let target := st.1
  let res := st.2
  if line = "" then .ok st
  else if strStartsWith line "//%" && strContains line "IMPORTS" then
    if target.isSome then .error () else .ok (some .imports, res)
  else if strStartsWith line "//%" && strContains line "MAIN_ACTIVITY_BODY" then
    if target.isSome then .error () else .ok (some .body, res)
  else if strStartsWith line "//%" && strContains line "MAIN_ACTIVITY_ON_CREATE" then
    if target.isSome then .error () else .ok (some .onCreate, res)
  else if strStartsWith line "//%" && strContains line "MAIN_ACTIVITY_ON_RESUME" then
    if target.isSome then .error () else .ok (some .onResume, res)
  else if strStartsWith line "//%" && strContains line "MAIN_ACTIVITY_ON_PAUSE" then
    if target.isSome then .error () else .ok (some .onPause, res)
  else if strStartsWith line "//%" && strContains line "END" then
    match target with
    | none => .error ()
    | some _ => .ok (none, res)
  else
    match target with
    | some sec => .ok (some sec, appendSection res sec (line ++ "\n"))
    | none => .ok st

/-- parse_inject_template from preprocessor.rs, over the list of lines of the
input file.  Returns the accumulated Inject; an assert failure is an error. -/
def parse_inject_template (lines : List String) : Except Unit Inject :=
  (lines.foldlM injectStep ((none : Option SectionId), injectDefault)).map (fun st => st.2)

/-- A line that the parser treats as a marker: it starts with the sigil and
names a section or the closing keyword. -/
def isMarkerLine (line : String) : Bool :=
  strStartsWith line "//%" &&
    (strContains line "IMPORTS" || strContains line "MAIN_ACTIVITY_BODY" ||
     strContains line "MAIN_ACTIVITY_ON_CREATE" || strContains line "MAIN_ACTIVITY_ON_RESUME" ||
     strContains line "MAIN_ACTIVITY_ON_PAUSE" || strContains line "END")

/-- The text the parser accumulates for a run of in-section lines: every
non-empty line followed by a line break, empty lines skipped. -/
def accumLines : List String → String
  | [] => ""
  | l :: rest => (if l = "" then "" else l ++ "\n") ++ accumLines rest

/-- The accumulation the claim describes: every enclosed line followed by a
line break, including empty lines. -/
def claimedAccumLines : List String → String
  | [] => ""
  | l :: rest => (l ++ "\n") ++ claimedAccumLines rest

/-! ## Toolchain version-fallback search (find_ndk_path in src/ops/build/util.rs)

The path builder closure and the file-system existence test are explicit
parameters; paths are strings. -/

/-- The first while loop of find_ndk_path: starting at the given version, while
the version is greater than 1, test the built path and decrement. -/
def findNdkPathDesc (pb : Nat → String) (ex : String → Bool) : Nat → Option String
  | 0 => none
  | 1 => none
  | Nat.succ (Nat.succ n) =>
    if ex (pb (n + 2)) then some (pb (n + 2)) else findNdkPathDesc pb ex (Nat.succ n)

/-- The second while loop of find_ndk_path, fuelled by its iteration count:
while the version is below 100, test the built path and increment.  The fuel
argument is exactly the number of remaining iterations, 100 - version. -/
def findNdkPathAscAux (pb : Nat → String) (ex : String → Bool) : Nat → Nat → Option String
  | 0, _ => none
  | Nat.succ k, tmp => if ex (pb tmp) then some (pb tmp) else findNdkPathAscAux pb ex k (tmp + 1)

/-- The second while loop of find_ndk_path: test versions platform, platform+1,
..., 99. -/
def findNdkPathAsc (pb : Nat → String) (ex : String → Bool) (tmp : Nat) : Option String :=
  findNdkPathAscAux pb ex (100 - tmp) tmp

/-- find_ndk_path from src/ops/build/util.rs: the descending phase, then the
ascending phase, and a not-found error (none) if both fail. -/
def find_ndk_path (platform : Nat) (pb : Nat → String) (ex : String → Bool) : Option String :=
  match findNdkPathDesc pb ex platform with
  | some p => some p
  | none => findNdkPathAsc pb ex platform

/-- Versions n, n-1, ..., 1. -/
def rangeDownTo1 : Nat → List Nat
  | 0 => []
  | Nat.succ n => (n + 1) :: rangeDownTo1 n

/-- Versions n, n-1, ..., 2. -/
def rangeDownTo2 : Nat → List Nat
  | 0 => []
  | 1 => []
  | Nat.succ (Nat.succ n) => (n + 2) :: rangeDownTo2 (Nat.succ n)

/-- The search the claim describes: try the starting version, then each
decreasing version down to 1, then each increasing version up to the ceiling
99, returning the first existing path. -/
def claimedNdkSearch (platform : Nat) (pb : Nat → String) (ex : String → Bool) : Option String :=
  ((rangeDownTo1 platform ++ List.range' platform (100 - platform)).map pb).find? ex

/-! ## Compile invocation hook (SharedLibraryExecutor::exec in src/ops/build/compile.rs)

The argument-list transformation of the executor, with the ambient
configuration (paths produced by the toolchain probing, the strip flags)
passed as explicit parameters. -/

/-- Rust Path::file_name on slash-separated path strings: the last component. -/
def pathFileName (s : String) : String :=
  String.mk ((s.data.splitOn '/').getLastD [])

/-- Rust PathBuf::set_file_name: replace the last component. -/
def pathSetFileName (s newName : String) : String :=
  String.mk (List.intercalate ['/'] ((s.data.splitOn '/').dropLast ++ [newName.data]))

/-- Rust Path::file_stem on a file name: the portion before the last dot,
except that a lone leading dot does not start an extension. -/
def fileStem (fname : String) : String :=
  let parts := fname.data.splitOn '.'
  match parts with
  | [] => fname
  | [_] => fname
  | first :: _ :: _ =>
    if first = [] ∧ parts.length = 2 then fname
    else String.mk (List.intercalate ['.'] parts.dropLast)

/-- Rust PathBuf::join of a directory and a relative component. -/
def pathJoin (dir component : String) : String := dir ++ "/" ++ component

/-- The cargo target kinds the executor distinguishes. -/
inductive RsTargetKind
  | bin
  | exampleBin
  | lib
  | customBuild
deriving DecidableEq, Repr

/-- The cargo compile modes the executor distinguishes. -/
inductive RsCompileMode
  | build
  | test
  | check
  | bench
  | doc
  | doctest
  | runCustomBuild
deriving DecidableEq, Repr

/-- The find_map/iter_mut source-argument substitution: replace the first
argument whose file name equals the unit source file's name by the same path
with the temporary file's name, or fail when no argument matches. -/
def replaceSourceArg (srcFileName tmpFileName : String) : List String → Option (List String)
  | [] => none
  | a :: rest =>
    if pathFileName a == srcFileName then some (pathSetFileName a tmpFileName :: rest)
    else (replaceSourceArg srcFileName tmpFileName rest).map (fun r => a :: r)

/-- The reversed peekable iteration of the executor: each argument other than
the first may be replaced as a function of the original preceding argument. -/
def rewriteFromPrevAux (f : String → String → String) : String → List String → List String
  | _, [] => []
  | prev, b :: rest => f prev b :: rewriteFromPrevAux f b rest

/-- Rewrite every argument, except the first, from the original previous
argument and itself. -/
def rewriteFromPrev (f : String → String → String) : List String → List String
  | [] => []
  | a :: rest => a :: rewriteFromPrevAux f a rest

/-- The primary-unit pair rewrite: the value bin following a crate-type flag
becomes cdylib, and the value following an out-dir flag becomes the dedicated
build directory. -/
def primaryPairRewrite (buildPath : String) (prev arg : String) : String :=
  if prev = "--crate-type" ∧ arg = "bin" then "cdylib"
  else if prev = "--out-dir" then buildPath
  else arg

/-- The dependency-compile pair rewrite: the value cdylib following a
crate-type flag becomes rlib. -/
def depPairRewrite (prev arg : String) : String :=
  if prev = "--crate-type" ∧ arg = "cdylib" then "rlib" else arg

/-- The toolchain paths the executor resolves before appending linker flags. -/
structure LinkerEnv where
  linkerPath : String
  sysroot : String
  versionSpecificLibs : String
  versionIndependentLibs : String
  libunwindDir : String
deriving DecidableEq, Repr

/-- The linker arguments appended for primary units, in source order:
linker binary, linker flavor, system root, the two system library search
paths, the synthesized libgcc shim directory, the unwind-library directory,
the conditional strip flag, and the position-independent-code requirement. -/
def extraLinkArgs (lp : LinkerEnv) (buildPath : String) (nostrip release : Bool) : List String :=
  ["-Clinker=" ++ lp.linkerPath,
   "-Clinker-flavor=ld",
   "-Clink-arg=--sysroot=" ++ lp.sysroot,
   "-Clink-arg=-L" ++ lp.versionSpecificLibs,
   "-Clink-arg=-L" ++ lp.versionIndependentLibs,
   "-Clink-arg=-L" ++ (buildPath ++ "/_libgcc_"),
   "-Clink-arg=-L" ++ lp.libunwindDir]
  ++ (if nostrip = false ∧ release = true then ["-Clink-arg=-strip-all"] else [])
  ++ ["-Crelocation-model=pic"]

/-- The outcome of one executor invocation: the command is executed with a
final argument list, skipped without execution, or aborted with an error. -/
inductive ExecOutcome
  | executed (args : List String)
  | skipped
  | errored
deriving DecidableEq, Repr

/-- The argument-list behavior of SharedLibraryExecutor::exec.  Primary units
(bin or example kind in build mode) get the temporary-source substitution, the
bin-to-cdylib and out-dir rewrites and the appended linker arguments; test
mode is skipped; other build-mode units get the cdylib-to-rlib rewrite; every
other mode runs the received arguments unchanged. -/
def hookExecArgs (mode : RsCompileMode) (kind : RsTargetKind) (args : List String)
    (srcIsPath : Bool) (srcFileName buildPath : String) (lp : LinkerEnv)
    (nostrip release : Bool) : ExecOutcome :=
  if mode = RsCompileMode.build ∧ (kind = RsTargetKind.bin ∨ kind = RsTargetKind.exampleBin) then
    if srcIsPath = false then ExecOutcome.skipped
    else
      let tmpFileName := "__cargo_apk_" ++ fileStem srcFileName ++ ".tmp"
      match replaceSourceArg srcFileName tmpFileName args with
      | none => ExecOutcome.errored
      | some args1 =>
        ExecOutcome.executed
          (rewriteFromPrev (primaryPairRewrite buildPath) args1
            ++ extraLinkArgs lp buildPath nostrip release)
  else if mode = RsCompileMode.test then ExecOutcome.skipped
  else if mode = RsCompileMode.build then
    ExecOutcome.executed (rewriteFromPrev depPairRewrite args)
  else ExecOutcome.executed args

/-- A sample toolchain-path environment for witness instances. -/
def sampleLinkerEnv : LinkerEnv :=
  ⟨"ndk/bin/ld", "ndk/sysroot", "ndk/usr/lib/30", "ndk/usr/lib", "ndk/clang/lib"⟩

/-! ## Shared libraries and the dependency-closure resolver
(src/ops/build/compile.rs, lines 314-392) -/

/-- Modelled from the spec: AndroidBuildTarget is defined in config.rs, which
is not under src/; the spec fixes BuildArchitecture as an immutable enumerated
descriptor of a target ABI. -/
inductive AndroidBuildTarget
  | armV7a
  | arm64V8a
  | x86
  | x86_64
deriving DecidableEq, Repr

/-- Modelled from the spec: android_abi is defined in config.rs, which is not
under src/; it renders the architecture tag of a BuildArchitecture, following
the standard ABI directory names. -/
def androidAbi : AndroidBuildTarget → String
  | .armV7a => "armeabi-v7a"
  | .arm64V8a => "arm64-v8a"
  | .x86 => "x86"
  | .x86_64 => "x86_64"

/-- SharedLibrary from src/ops/build/compile.rs. -/
structure SharedLibrary where
  abi : AndroidBuildTarget
  path : String
  filename : String
deriving DecidableEq, Repr

/-- Rust str::lines().next().unwrap(): the text before the first line feed,
with a trailing carriage return stripped. -/
def rustFirstLine (s : String) : String :=
  let l := (s.data.splitOn '\n').headD []
  String.mk (if l.getLast? = some '\r' then l.dropLast else l)

/-- The SharedLibrary record the executor inserts for the primary artifact
(compile.rs lines 314-327): the path joins the build directory with the first
line of the compiler's file-names report, and the filename is derived from
the unit name alone. -/
def primarySharedLibrary (abi : AndroidBuildTarget)
    (buildPath printStdout targetName : String) : SharedLibrary :=
  { abi := abi
    path := pathJoin buildPath (rustFirstLine printStdout)
    filename := "lib" ++ targetName ++ ".so" }

/-- find_library_path from compile.rs: the first search path under which the
library name is a file. -/
def find_library_path (paths : List String) (isFile : String → Bool) (library : String) :
    Option String :=
  (paths.map (fun p => pathJoin p library)).find? isFile

/-- The ambient inputs of the dependency-closure loop: the library search
paths, the file-system test, the readelf NEEDED listing per file, and the
platform image's shared-library names. -/
structure ResolverEnv where
  searchPaths : List String
  isFile : String → Bool
  neededOf : String → Except Unit (List String)
  androidDylibs : List String

/-- HashMap::entry(k).or_insert(false): insert the key unprocessed only when
it is not yet present. -/
def orInsert (m : List (String × Bool)) (k : String) : List (String × Bool) :=
  if m.any (fun e => e.1 == k) then m else m ++ [(k, false)]

/-- Mark one library name as processed. -/
def markProcessed (m : List (String × Bool)) (k : String) : List (String × Bool) :=
  m.map (fun e => if e.1 == k then (e.1, true) else e)

/-- The names currently mapped to the unprocessed flag. -/
def unprocessedNames (m : List (String × Bool)) : List String :=
  (m.filter (fun e => !e.2)).map (fun e => e.1)

/-- The names of a map. -/
def keysOf (m : List (String × Bool)) : List String := m.map (fun e => e.1)

/-- Insert one platform library name as already processed, keeping the first
entry on duplicates (HashMap collect semantics). -/
def seedInsert (m : List (String × Bool)) (d : String) : List (String × Bool) :=
  if m.any (fun e => e.1 == d) then m else m ++ [(d, true)]

/-- The android platform libraries collected as already processed
(compile.rs lines 349-353); collecting into a HashMap deduplicates. -/
def seedProcessed (names : List String) : List (String × Bool) :=
  names.foldl seedInsert []

/-- The selection of one unprocessed entry.  HashMap iteration order is
unspecified, so the choice is a parameter; choosePick forces every choice to
be a member of the unprocessed list (falling back to its head), so that
quantifying over pick covers every iteration order. -/
def choosePick (pick : List String → Option String) (l : List String) : Option String :=
  match pick l with
  | some x => if l.contains x then some x else l.head?
  | none => l.head?

/-- The mutable state of the closure loop: the processed map, the emitted
SharedLibrary records, and the emitted not-found warnings. -/
structure ResolverState where
  found : List (String × Bool)
  emitted : List SharedLibrary
  warnings : List String
deriving DecidableEq, Repr

/-- Failure of the closure computation: the fuel bound was hit with work
remaining (cannot happen, claim C4), or an external readelf invocation
failed. -/
inductive ResolverErr
  | fuelExhausted
  | externalTool
deriving DecidableEq, Repr

/-- The while-let closure loop of compile.rs lines 361-392, fuelled: pick an
unprocessed name, mark it processed, locate it; when found, list its NEEDED
entries, insert the new ones unprocessed and emit a SharedLibrary record;
when not found, emit a warning and continue. -/
def resolveLoop (env : ResolverEnv) (abi : AndroidBuildTarget)
    (pick : List String → Option String) :
    Nat → ResolverState → Except ResolverErr ResolverState
  | 0, st =>
    match choosePick pick (unprocessedNames st.found) with
    | none => .ok st
    | some _ => .error .fuelExhausted
  | Nat.succ fuel, st =>
    match choosePick pick (unprocessedNames st.found) with
    | none => .ok st
    | some dylib =>
      let found1 := markProcessed st.found dylib
      match find_library_path env.searchPaths env.isFile dylib with
      | some path =>
        match env.neededOf path with
        | .error _ => .error .externalTool
        | .ok needs =>
          resolveLoop env abi pick fuel
            { found := needs.foldl orInsert found1
              emitted := st.emitted ++ [{ abi := abi, path := path, filename := dylib }]
              warnings := st.warnings }
      | none =>
        resolveLoop env abi pick fuel
          { found := found1
            emitted := st.emitted
            warnings := st.warnings ++ [dylib] }

/-- The closure computation for one primary artifact (compile.rs lines
346-392): seed the platform libraries processed, insert the primary binary's
NEEDED names unprocessed, then run the loop. -/
def resolveTransitive (env : ResolverEnv) (abi : AndroidBuildTarget)
    (pick : List String → Option String) (fuel : Nat) (primaryPath : String) :
    Except ResolverErr ResolverState :=
  match env.neededOf primaryPath with
  | .error _ => .error .externalTool
  | .ok primaryNeeds =>
    resolveLoop env abi pick fuel
      { found := primaryNeeds.foldl orInsert (seedProcessed env.androidDylibs)
        emitted := []
        warnings := [] }

/-- The whole shared-library collection accumulated for one unit: the primary
record inserted at compile.rs line 320 followed by the closure records. -/
def unitSharedLibraries (primary : SharedLibrary) (st : ResolverState) : List SharedLibrary :=
  primary :: st.emitted

/-- The set of library names currently marked processed. -/
def processedKeys (m : List (String × Bool)) : Finset String :=
  ((m.filter (fun e => e.2)).map (fun e => e.1)).toFinset

/-- The loop invariant of the dependency-closure resolver: the map keys are
distinct, every emitted or warned name is marked processed, no name is
emitted or warned twice, every platform library name is marked processed and
is never emitted or warned, every emitted record was located at its recorded
path for the current architecture, and every processed name is a platform
name, an emitted name (when locatable) or a warned name (when not). -/
structure ResolverInv (env : ResolverEnv) (abi : AndroidBuildTarget)
    (st : ResolverState) : Prop where
  keys_nodup : (keysOf st.found).Nodup
  ew_true : ∀ n ∈ st.emitted.map (fun l => l.filename) ++ st.warnings, (n, true) ∈ st.found
  ew_nodup : (st.emitted.map (fun l => l.filename) ++ st.warnings).Nodup
  android_true : ∀ d ∈ env.androidDylibs, (d, true) ∈ st.found
  ew_not_android : ∀ n ∈ st.emitted.map (fun l => l.filename) ++ st.warnings,
    n ∉ env.androidDylibs
  emit_found : ∀ l ∈ st.emitted,
    find_library_path env.searchPaths env.isFile l.filename = some l.path ∧ l.abi = abi
  proc_char : ∀ k, (k, true) ∈ st.found →
    k ∈ env.androidDylibs
      ∨ (match find_library_path env.searchPaths env.isFile k with
          | some _ => k ∈ st.emitted.map (fun l => l.filename)
          | none => k ∈ st.warnings)

/-- A concrete resolver environment on which the primary binary needs a
library carrying the primary record's own packaged filename. -/
def envC3 : ResolverEnv :=
  { searchPaths := ["sp"]
    isFile := fun p => p == "sp/libfoo.so"
    neededOf := fun p => if p == "primary/libfoo.so" then .ok ["libfoo.so"] else .ok []
    androidDylibs := [] }

/-- A concrete resolver environment with one transitive dependency that no
search path can locate. -/
def envC8 : ResolverEnv :=
  { searchPaths := []
    isFile := fun _ => false
    neededOf := fun p => if p == "primary/libapp.so" then .ok ["libmissing.so"] else .ok []
    androidDylibs := [] }

/-! ## Package assembly per unit (build_apks in src/ops/build.rs) -/

/-- A cargo target as the package assembler sees it: kind and name. -/
structure ApkTarget where
  kind : RsTargetKind
  name : String
deriving DecidableEq, Repr

/-- The per-kind output directory of build_apks (bin at the top, examples in
a subdirectory; other kinds are unreachable in the source). -/
def targetApkDirectory (finalApkDir : String) : RsTargetKind → String
  | RsTargetKind.exampleBin => pathJoin finalApkDir "examples"
  | _ => finalApkDir

/-- The final path of a packaged unit. -/
def apkFinalPath (finalApkDir : String) (t : ApkTarget) : String :=
  pathJoin (targetApkDirectory finalApkDir t.kind) (t.name ++ ".apk")

/-- The PackageResult mapping of build_apks: one entry per compiled unit,
keyed by kind and name, inserted unconditionally at the end of the loop
body. -/
def build_apks_map (finalApkDir : String) (units : List (ApkTarget × List SharedLibrary)) :
    List ((RsTargetKind × String) × String) :=
  units.map (fun u => ((u.1.kind, u.1.name), apkFinalPath finalApkDir u.1))

/-- The architecture-tagged internal path under which a shared library is
added to the package, with forward slashes (build.rs lines 288-292). -/
def soPath (l : SharedLibrary) : String :=
  "lib/" ++ androidAbi l.abi ++ "/" ++ l.filename

/-- The external invocations of one iteration of the build_apks loop, in
source order. -/
inductive ApkAction
  | aaptPackage
  | javac
  | d8
  | aaptAddDex
  | aaptAddLib (soPath : String)
  | zipalign
  | genDebugKeystore
  | apkSigner
deriving DecidableEq, Repr

/-- The invocation sequence of one build_apks iteration (build.rs lines
195-379): resource packaging, source compilation, bytecode merge, adding the
bytecode and each shared library, alignment, then the keystore existence
check with lazy generation, then the signing decision. -/
def apkBuildActions (keystoreExists sign : Bool) (libs : List SharedLibrary) : List ApkAction :=
  [ApkAction.aaptPackage, ApkAction.javac, ApkAction.d8, ApkAction.aaptAddDex]
  ++ libs.map (fun l => ApkAction.aaptAddLib (soPath l))
  ++ [ApkAction.zipalign]
  ++ (if keystoreExists then [] else [ApkAction.genDebugKeystore])
  ++ (if sign then [ApkAction.apkSigner] else [])

/-! ## Manifest generation (build_manifest in src/ops/build.rs) -/

/-- A feature entry of the per-target configuration, as read by
build_manifest. -/
structure AndroidFeature where
  name : String
  required : Bool
  version : Option String
deriving DecidableEq, Repr

/-- A permission entry of the per-target configuration, as read by
build_manifest. -/
structure AndroidPermission where
  name : String
  max_sdk_version : Option Nat
deriving DecidableEq, Repr

/-- The fields of AndroidTargetConfig that build_manifest interpolates
(config.rs is not under src/; the fields and their types are taken from their
uses in build.rs). -/
structure AndroidTargetConfig where
  package_name : String
  package_label : String
  package_icon : Option String
  fullscreen : Bool
  application_attributes : Option String
  activity_attributes : Option String
  features : List AndroidFeature
  permissions : List AndroidPermission
  version_code : Nat
  version_name : String
  opengles_version_major : Nat
  opengles_version_minor : Nat
deriving Repr

/-- The two AndroidConfig fields build_manifest interpolates. -/
structure AndroidSdkConfig where
  min_sdk_version : Nat
  target_sdk_version : Nat
deriving Repr

/-- Rust Display of a bool. -/
def boolStr (b : Bool) : String := if b then "true" else "false"

/-- The width-4 zero-padded decimal format of the glEsVersion halves. -/
def pad4 (n : Nat) : String :=
  let s := toString n
  if s.length < 4 then String.mk (List.replicate (4 - s.length) '0') ++ s else s

/-- The application attribute block of build_manifest. -/
def applicationAttrs (tc : AndroidTargetConfig) : String :=
  "\n            android:hasCode=\"true\" android:label=\"" ++ tc.package_label ++ "\""
  ++ (match tc.package_icon with
      | some a => "\n            android:icon=\"" ++ a ++ "\""
      | none => "")
  ++ (if tc.fullscreen then
        "\n            android:theme=\"@android:style/Theme.DeviceDefault.NoActionBar.Fullscreen\""
      else "")
  ++ (match tc.application_attributes with
      | some a => rustReplace a "\n" "\n            "
      | none => "")

/-- The activity attribute block of build_manifest. -/
def activityAttrs (tc : AndroidTargetConfig) : String :=
  "\n                android:name=\".MainActivity\"\n                android:label=\""
  ++ tc.package_label
  ++ "\"\n                android:configChanges=\"orientation|keyboardHidden|screenSize\" "
  ++ (match tc.activity_attributes with
      | some a => rustReplace a "\n" "\n                "
      | none => "")

/-- One uses-feature element generated from a feature-list entry. -/
def usesFeatureElement (f : AndroidFeature) : String :=
  "\n\t<uses-feature android:name=\"" ++ f.name ++ "\" android:required=\""
  ++ boolStr f.required ++ "\" "
  ++ (match f.version with
      | some v => "android:version=\"" ++ v ++ "\""
      | none => "")
  ++ "/>"

/-- The uses-feature block: the feature-list elements joined by a comma and a
space. -/
def usesFeaturesStr (fs : List AndroidFeature) : String :=
  String.intercalate ", " (fs.map usesFeatureElement)

/-- One uses-permission element generated from a permission-list entry. -/
def usesPermissionElement (p : AndroidPermission) : String :=
  "\n\t<uses-permission android:name=\"" ++ p.name ++ "\" "
  ++ (match p.max_sdk_version with
      | some v => "android:maxSdkVersion=\"" ++ toString v ++ "\""
      | none => "")
  ++ "/>"

/-- The uses-permission block. -/
def usesPermissionsStr (ps : List AndroidPermission) : String :=
  String.intercalate ", " (ps.map usesPermissionElement)

/-- One service element generated from an auxiliary service declaration. -/
def serviceElement (s : String) : String :=
  "\n\t<service android:name=\"" ++ s ++ "\" android:enabled=\"true\"></service>"

/-- The service block. -/
def servicesStr (ss : List String) : String :=
  String.intercalate ", " (ss.map serviceElement)

/-- build_manifest from src/ops/build.rs: the manifest text written to
AndroidManifest.xml, including the trailing line break of writeln. -/
def build_manifest (cfg : AndroidSdkConfig) (tc : AndroidTargetConfig)
    (targetName : String) (javaServices : List String) : String :=
  "<?xml version=\"1.0\" encoding=\"utf-8\"?>\n"
  ++ "<manifest xmlns:android=\"http://schemas.android.com/apk/res/android\"\n"
  ++ "        package=\"" ++ rustReplace tc.package_name "-" "_" ++ "\"\n"
  ++ "        android:versionCode=\"" ++ toString tc.version_code ++ "\"\n"
  ++ "        android:versionName=\"" ++ tc.version_name ++ "\">\n"
  ++ "    <uses-sdk android:targetSdkVersion=\"" ++ toString cfg.target_sdk_version
  ++ "\" android:minSdkVersion=\"" ++ toString cfg.min_sdk_version ++ "\" />\n"
  ++ "    <uses-feature android:glEsVersion=\""
  ++ ("0x" ++ pad4 tc.opengles_version_major ++ pad4 tc.opengles_version_minor)
  ++ "\" android:required=\"true\"></uses-feature>"
  ++ usesFeaturesStr tc.features
  ++ usesPermissionsStr tc.permissions
  ++ "\n    <application " ++ applicationAttrs tc ++ " >\n"
  ++ "        " ++ servicesStr javaServices ++ "\n"
  ++ "        <activity " ++ activityAttrs tc ++ " >\n"
  ++ "            <meta-data android:name=\"android.app.lib_name\" android:value=\""
  ++ targetName ++ "\" />\n"
  ++ "            <intent-filter>\n"
  ++ "                <action android:name=\"android.intent.action.MAIN\" />\n"
  ++ "                <category android:name=\"android.intent.category.LAUNCHER\" />\n"
  ++ "            </intent-filter>\n"
  ++ "        </activity>\n"
  ++ "    </application>\n"
  ++ "</manifest>\n"

/-- The claim C7 scenario: a permission list holding exactly the CAMERA
permission without a max-SDK version, and an empty feature list; the
remaining fields carry plain representative values. -/
def cameraTargetConfig : AndroidTargetConfig :=
  { package_name := "com.example.app"
    package_label := "Example"
    package_icon := none
    fullscreen := false
    application_attributes := none
    activity_attributes := none
    features := []
    permissions := [⟨"CAMERA", none⟩]
    version_code := 1
    version_name := "1.0"
    opengles_version_major := 3
    opengles_version_minor := 2 }

/-- The manifest generated for the claim C7 scenario. -/
def cameraManifest : String :=
  build_manifest ⟨18, 30⟩ cameraTargetConfig "app" []

theorem appendSection_empty (i : Inject) (s : SectionId) : appendSection i s "" = i := by
  cases s <;> simp [appendSection]

theorem appendSection_append (i : Inject) (s : SectionId) (a b : String) :
    appendSection (appendSection i s a) s b = appendSection i s (a ++ b) := by
  cases s <;> simp [appendSection, String.append_assoc]

theorem injectStep_end (sec : SectionId) (res : Inject) :
    injectStep (some sec, res) "//% END" = .ok (none, res) := rfl

theorem injectStep_inside (sec : SectionId) (res : Inject) (l : String)
    (hm : isMarkerLine l = false) :
    injectStep (some sec, res) l
      = .ok (some sec, if l = "" then res else appendSection res sec (l ++ "\n")) := by
  by_cases h0 : l = ""
  · subst h0; simp [injectStep]
  · have hsw : strStartsWith l "//%" = false ∨ strStartsWith l "//%" = true :=
      (Bool.eq_false_or_eq_true _).symm.imp id id
    unfold isMarkerLine at hm
    by_cases hs : strStartsWith l "//%" = true
    · rw [hs] at hm
      simp only [Bool.true_and, Bool.or_eq_false_iff] at hm
      obtain ⟨⟨⟨⟨⟨h1, h2⟩, h3⟩, h4⟩, h5⟩, h6⟩ := hm
      simp [injectStep, h0, hs, h1, h2, h3, h4, h5, h6]
    · have hs' : strStartsWith l "//%" = false := by
        cases hsw with
        | inl h => exact h
        | inr h => exact absurd h hs
      simp [injectStep, h0, hs']

/-- Claim C5 (amended): in the glue-template parser, starting in an open
section, a run of non-marker lines followed by the closing marker line appends
exactly the non-empty enclosed lines, each with a trailing line break, to that
section's accumulator; empty enclosed lines are skipped. -/
theorem claim_C5_amended (sec : SectionId) (res : Inject) (body rest : List String)
    (hbody : ∀ l ∈ body, isMarkerLine l = false) :
    List.foldlM injectStep (some sec, res) (body ++ "//% END" :: rest)
      = List.foldlM injectStep ((none : Option SectionId), appendSection res sec (accumLines body)) rest := by
  induction body generalizing res with
  | nil =>
    simp only [List.nil_append, List.foldlM_cons, injectStep_end, accumLines, appendSection_empty]
    rfl
  | cons l body ih =>
    have hl : isMarkerLine l = false := hbody l (List.mem_cons_self _ _)
    have hrest : ∀ x ∈ body, isMarkerLine x = false := fun x hx => hbody x (List.mem_cons_of_mem _ hx)
    simp only [List.cons_append, List.foldlM_cons, injectStep_inside sec res l hl]
    by_cases h0 : l = ""
    · subst h0
      simp only [if_pos rfl, accumLines]
      have := ih res hrest
      simpa using this
    · simp only [if_neg h0, accumLines, if_neg h0]
      have := ih (appendSection res sec (l ++ "\n")) hrest
      rw [show (Except.ok (some sec, appendSection res sec (l ++ "\n")) :
            Except Unit (Option SectionId × Inject)) >>= (fun st => List.foldlM injectStep st (body ++ "//% END" :: rest))
          = List.foldlM injectStep (some sec, appendSection res sec (l ++ "\n")) (body ++ "//% END" :: rest) from rfl]
      rw [this, appendSection_append]

/-- Claim C5 witness: the amended run lemma applied to a concrete one-line
section body. -/
theorem claim_C5_witness :
    List.foldlM injectStep (some SectionId.imports, injectDefault) (["import a;"] ++ "//% END" :: [])
      = List.foldlM injectStep ((none : Option SectionId),
          appendSection injectDefault SectionId.imports (accumLines ["import a;"])) [] :=
  claim_C5_amended SectionId.imports injectDefault ["import a;"] [] (by decide)

/-- Claim C5 counterexample: on the input whose section encloses an empty line
and the line x, the parser accumulates only x with a line break, not the
concatenation of all enclosed lines each followed by a line break as the claim
states. -/
theorem claim_C5_counterexample :
    (parse_inject_template ["//% IMPORTS", "", "x", "//% END"]).map (fun i => i.imports)
        = .ok "x\n"
      ∧ "x\n" ≠ claimedAccumLines ["", "x"] :=
  ⟨rfl, by decide⟩

theorem findNdkPathDesc_eq (pb : Nat → String) (ex : String → Bool) :
    ∀ p, findNdkPathDesc pb ex p = ((rangeDownTo2 p).map pb).find? ex
  | 0 => rfl
  | 1 => rfl
  | Nat.succ (Nat.succ n) => by
    have ih := findNdkPathDesc_eq pb ex (Nat.succ n)
    simp only [findNdkPathDesc, rangeDownTo2, List.map_cons, List.find?_cons]
    cases h : ex (pb (n + 2)) <;> simp [h, ih]

theorem findNdkPathAscAux_eq (pb : Nat → String) (ex : String → Bool) :
    ∀ k tmp, findNdkPathAscAux pb ex k tmp = ((List.range' tmp k).map pb).find? ex
  | 0, _ => rfl
  | Nat.succ k, tmp => by
    have ih := findNdkPathAscAux_eq pb ex k (tmp + 1)
    simp only [findNdkPathAscAux, List.range'_succ, List.map_cons, List.find?_cons]
    cases h : ex (pb tmp) <;> simp [h, ih]

/-- Claim C2 (amended): the toolchain version-fallback search returns the first
existing path obtained by trying the starting version, then each decreasing
version down to 2, then each increasing version up to the ceiling 99, and it
returns a not-found error exactly when no path built from a version in that
range exists.  Version 1 is reached only through the increasing phase, when
the starting version is at most 1. -/
theorem claim_C2_amended (platform : Nat) (pb : Nat → String) (ex : String → Bool) :
    find_ndk_path platform pb ex
        = ((rangeDownTo2 platform ++ List.range' platform (100 - platform)).map pb).find? ex
      ∧ (find_ndk_path platform pb ex = none
          ↔ ∀ v ∈ rangeDownTo2 platform ++ List.range' platform (100 - platform), ex (pb v) = false) := by
  have hmain : find_ndk_path platform pb ex
      = ((rangeDownTo2 platform ++ List.range' platform (100 - platform)).map pb).find? ex := by
    unfold find_ndk_path findNdkPathAsc
    rw [findNdkPathDesc_eq, findNdkPathAscAux_eq, List.map_append, List.find?_append]
    cases h : ((rangeDownTo2 platform).map pb).find? ex <;> simp [h, Option.or]
  refine ⟨hmain, ?_⟩
  rw [hmain]
  simp only [List.find?_eq_none, List.mem_map, List.mem_append, Bool.not_eq_true,
    forall_exists_index, and_imp]
  constructor
  · intro h v hv
    exact h (pb v) v hv rfl
  · intro h x v hv hx
    exact hx ▸ h v hv

/-- Claim C2 counterexample: with starting version 3 and a file system on which
only the version-1 path exists, the claimed search (which descends to 1) finds
the version-1 path, but find_ndk_path returns a not-found error: its
descending loop stops at version 2. -/
theorem claim_C2_counterexample :
    find_ndk_path 3 (fun n => if n == 1 then "yes" else "no") (fun s => s == "yes") = none
      ∧ claimedNdkSearch 3 (fun n => if n == 1 then "yes" else "no") (fun s => s == "yes")
          = some "yes" := by
  constructor
  · rfl
  · rfl

theorem rewriteFromPrevAux_length (f : String → String → String) :
    ∀ (rest : List String) (prev : String), (rewriteFromPrevAux f prev rest).length = rest.length
  | [], _ => rfl
  | _ :: rest, _ => by simp [rewriteFromPrevAux, rewriteFromPrevAux_length f rest]

theorem rewriteFromPrev_length (f : String → String → String) (args : List String) :
    (rewriteFromPrev f args).length = args.length := by
  cases args with
  | nil => rfl
  | cons a rest => simp [rewriteFromPrev, rewriteFromPrevAux_length]

theorem rewriteFromPrevAux_get (f : String → String → String) :
    ∀ (rest : List String) (prev : String) (i : Nat),
      (rewriteFromPrevAux f prev rest)[i]? =
        match (prev :: rest)[i]?, rest[i]? with
        | some p, some b => some (f p b)
        | _, _ => none
  | [], prev, i => by
    cases h : (prev :: ([] : List String))[i]? <;> simp [rewriteFromPrevAux]
  | b :: rest, prev, i => by
    cases i with
    | zero => simp [rewriteFromPrevAux]
    | succ i =>
      have ih := rewriteFromPrevAux_get f rest b i
      simpa [rewriteFromPrevAux] using ih

theorem rewriteFromPrev_head (f : String → String → String) (args : List String) :
    (rewriteFromPrev f args)[0]? = args[0]? := by
  cases args <;> simp [rewriteFromPrev]

theorem rewriteFromPrev_get (f : String → String → String) (args : List String) (i : Nat) :
    (rewriteFromPrev f args)[i + 1]? =
      match args[i]?, args[i + 1]? with
      | some p, some b => some (f p b)
      | _, _ => none := by
  cases args with
  | nil => simp [rewriteFromPrev]
  | cons a rest => simpa [rewriteFromPrev] using rewriteFromPrevAux_get f rest a i

/-- Claim C1 (amended): a build-mode invocation of a bin or example unit has
every original crate-type value bin rewritten to cdylib in the executed
argument list; a build-mode invocation of any other unit is executed with
exactly the received list except that every crate-type value cdylib becomes
rlib; a test-mode invocation is skipped without being executed; and every
invocation in any remaining mode is executed byte-identical. -/
theorem claim_C1_amended :
    (∀ mode kind args srcIsPath srcName buildPath lp nostrip release,
        mode ≠ RsCompileMode.build → mode ≠ RsCompileMode.test →
        hookExecArgs mode kind args srcIsPath srcName buildPath lp nostrip release
          = ExecOutcome.executed args)
    ∧ (∀ kind args srcIsPath srcName buildPath lp nostrip release,
        hookExecArgs RsCompileMode.test kind args srcIsPath srcName buildPath lp nostrip release
          = ExecOutcome.skipped)
    ∧ (∀ kind args srcIsPath srcName buildPath lp nostrip release,
        kind ≠ RsTargetKind.bin → kind ≠ RsTargetKind.exampleBin →
        ∃ out,
          hookExecArgs RsCompileMode.build kind args srcIsPath srcName buildPath lp nostrip release
              = ExecOutcome.executed out
            ∧ out.length = args.length
            ∧ out[0]? = args[0]?
            ∧ ∀ i, out[i + 1]? =
                match args[i]?, args[i + 1]? with
                | some p, some b => some (if p = "--crate-type" ∧ b = "cdylib" then "rlib" else b)
                | _, _ => none)
    ∧ (∀ kind args args1 srcName buildPath lp nostrip release,
        (kind = RsTargetKind.bin ∨ kind = RsTargetKind.exampleBin) →
        replaceSourceArg srcName ("__cargo_apk_" ++ fileStem srcName ++ ".tmp") args = some args1 →
        ∃ out,
          hookExecArgs RsCompileMode.build kind args true srcName buildPath lp nostrip release
              = ExecOutcome.executed out
            ∧ ∀ i, args1[i]? = some "--crate-type" → args1[i + 1]? = some "bin" →
                out[i + 1]? = some "cdylib") := by
  refine ⟨?_, ?_, ?_, ?_⟩
  · intro mode kind args srcIsPath srcName buildPath lp nostrip release hb ht
    simp [hookExecArgs, hb, ht]
  · intro kind args srcIsPath srcName buildPath lp nostrip release
    cases kind <;> simp [hookExecArgs]
  · intro kind args srcIsPath srcName buildPath lp nostrip release hb he
    refine ⟨rewriteFromPrev depPairRewrite args, ?_, rewriteFromPrev_length _ _,
      rewriteFromPrev_head _ _, fun i => ?_⟩
    · simp [hookExecArgs, hb, he]
    · simpa [depPairRewrite] using rewriteFromPrev_get depPairRewrite args i
  · intro kind args args1 srcName buildPath lp nostrip release hk hrep
    refine ⟨rewriteFromPrev (primaryPairRewrite buildPath) args1
        ++ extraLinkArgs lp buildPath nostrip release, ?_, ?_⟩
    · simp [hookExecArgs, hk, hrep]
    · intro i h1 h2
      have hi : i + 1 < args1.length := (List.getElem?_eq_some_iff.mp h2).choose
      have hi' : i + 1 < (rewriteFromPrev (primaryPairRewrite buildPath) args1).length := by
        rw [rewriteFromPrev_length]; exact hi
      rw [List.getElem?_append_left hi', rewriteFromPrev_get, h1, h2]
      simp [primaryPairRewrite]

/-- Claim C1 counterexample: a check-mode invocation carrying the crate-type
value cdylib is executed byte-identical, whereas the claim requires every
non-primary invocation whose crate-type value is cdylib to be rewritten to
rlib. -/
theorem claim_C1_counterexample :
    hookExecArgs RsCompileMode.check RsTargetKind.lib ["--crate-type", "cdylib"] true "lib.rs"
        "build" sampleLinkerEnv false false
      = ExecOutcome.executed ["--crate-type", "cdylib"]
      ∧ ExecOutcome.executed ["--crate-type", "cdylib"]
          ≠ ExecOutcome.executed ["--crate-type", "rlib"] := by
  exact ⟨rfl, by decide⟩

/-- Claim C1 witness: the amended theorem applied at concrete invocations, a
doc-mode pass-through and a primary build-mode bin rewrite. -/
theorem claim_C1_witness :
    hookExecArgs RsCompileMode.doc RsTargetKind.lib ["lib.rs"] true "main.rs" "bp"
        sampleLinkerEnv false false = ExecOutcome.executed ["lib.rs"]
      ∧ ∃ out,
          hookExecArgs RsCompileMode.build RsTargetKind.bin ["src/main.rs", "--crate-type", "bin"]
              true "main.rs" "bp" sampleLinkerEnv false false
            = ExecOutcome.executed out
          ∧ ∀ i, (["src/__cargo_apk_main.tmp", "--crate-type", "bin"] : List String)[i]?
                = some "--crate-type" →
              (["src/__cargo_apk_main.tmp", "--crate-type", "bin"] : List String)[i + 1]?
                = some "bin" →
              out[i + 1]? = some "cdylib" :=
  ⟨claim_C1_amended.1 RsCompileMode.doc RsTargetKind.lib ["lib.rs"] true "main.rs" "bp"
      sampleLinkerEnv false false (by decide) (by decide),
   claim_C1_amended.2.2.2 RsTargetKind.bin ["src/main.rs", "--crate-type", "bin"]
      ["src/__cargo_apk_main.tmp", "--crate-type", "bin"] "main.rs" "bp" sampleLinkerEnv
      false false (Or.inl rfl) rfl⟩

set_option maxRecDepth 100000 in
/-- Claim C7 (amended): for the scenario configuration (permission list
exactly CAMERA without a max-SDK version, empty feature list) the generated
manifest contains exactly one permission element, naming CAMERA and carrying
no max-SDK attribute, and exactly one feature element: the fixed OpenGL-ES
version requirement that every manifest carries; no element derives from the
feature list. -/
theorem claim_C7_amended :
    countOccurrences cameraManifest "<uses-permission" = 1
      ∧ countOccurrences cameraManifest "<uses-permission android:name=\"CAMERA\" />" = 1
      ∧ countOccurrences cameraManifest "maxSdkVersion" = 0
      ∧ countOccurrences cameraManifest "<uses-feature" = 1
      ∧ countOccurrences cameraManifest "<uses-feature android:glEsVersion=" = 1
      ∧ usesFeaturesStr cameraTargetConfig.features = "" :=
  ⟨rfl, rfl, rfl, rfl, rfl, rfl⟩

set_option maxRecDepth 100000 in
/-- Claim C7 counterexample: in the scenario of the claim the generated
manifest text contains one feature element, not zero: the OpenGL-ES version
requirement is emitted unconditionally. -/
theorem claim_C7_counterexample :
    countOccurrences cameraManifest "<uses-feature" = 1
      ∧ countOccurrences cameraManifest "<uses-feature" ≠ 0 :=
  ⟨rfl, by decide⟩

/-- Claim C9: in every build_apks iteration the debug keystore is generated
exactly when the keystore file does not exist, independently of the signing
flag; the signing invocation runs exactly when signing is enabled; and the
keystore generation always precedes the signing invocation.  Disabling
signing skips only the signing step. -/
theorem claim_C9 (keystoreExists sign : Bool) (libs : List SharedLibrary) :
    (ApkAction.genDebugKeystore ∈ apkBuildActions keystoreExists sign libs
        ↔ keystoreExists = false)
      ∧ (ApkAction.apkSigner ∈ apkBuildActions keystoreExists sign libs ↔ sign = true)
      ∧ (∀ i j : Nat, (apkBuildActions keystoreExists sign libs)[i]? = some ApkAction.genDebugKeystore →
          (apkBuildActions keystoreExists sign libs)[j]? = some ApkAction.apkSigner → i < j) := by
  refine ⟨?_, ?_, ?_⟩
  · cases keystoreExists <;> cases sign <;> simp [apkBuildActions]
  · cases keystoreExists <;> cases sign <;> simp [apkBuildActions]
  · intro i j hi hj
    have hacts : apkBuildActions keystoreExists sign libs
        = (([ApkAction.aaptPackage, ApkAction.javac, ApkAction.d8, ApkAction.aaptAddDex]
            ++ libs.map (fun l => ApkAction.aaptAddLib (soPath l))
            ++ [ApkAction.zipalign])
          ++ (if keystoreExists then [] else [ApkAction.genDebugKeystore]))
          ++ (if sign then [ApkAction.apkSigner] else []) := by
      simp [apkBuildActions]
    set Q : List ApkAction :=
      [ApkAction.aaptPackage, ApkAction.javac, ApkAction.d8, ApkAction.aaptAddDex]
        ++ libs.map (fun l => ApkAction.aaptAddLib (soPath l)) ++ [ApkAction.zipalign] with hQ
    set B : List ApkAction := if keystoreExists then [] else [ApkAction.genDebugKeystore] with hB
    set C : List ApkAction := if sign then [ApkAction.apkSigner] else [] with hC
    have hgenQ : ApkAction.genDebugKeystore ∉ Q := by simp [hQ]
    have hsigQ : ApkAction.apkSigner ∉ Q := by simp [hQ]
    have hsigB : ApkAction.apkSigner ∉ B := by cases keystoreExists <;> simp [hB]
    have hgenC : ApkAction.genDebugKeystore ∉ C := by cases sign <;> simp [hC]
    rw [hacts] at hi hj
    have hiQB : i < Q.length + B.length := by
      by_contra h
      push_neg at h
      rw [List.getElem?_append_right (by simpa using h)] at hi
      exact hgenC (List.getElem?_mem hi)
    have hjQB : Q.length + B.length ≤ j := by
      by_contra h
      push_neg at h
      rw [List.getElem?_append_left (by simpa using h)] at hj
      rcases List.mem_append.mp (List.getElem?_mem hj) with h1 | h2
      · exact hsigQ h1
      · exact hsigB h2
    omega

/-- Claim C9 witness: the theorem applied with a missing keystore, signing
enabled and no shared libraries; generation is present and the concrete
generation index 5 precedes the concrete signing index 6. -/
theorem claim_C9_witness :
    ApkAction.genDebugKeystore ∈ apkBuildActions false true [] ∧ (5 : Nat) < 6 :=
  ⟨(claim_C9 false true []).1.mpr rfl,
   (claim_C9 false true []).2.2 5 6 (by decide) (by decide)⟩

/-- Claim C10: the primary SharedLibrary record's packaged filename is
lib + unit name + .so, derived from the unit name alone, while its path joins
the build directory with the first line of the compiler's file-names report;
the reported artifact name never reaches the packaged filename. -/
theorem claim_C10 (abi : AndroidBuildTarget) (buildPath printStdout targetName : String) :
    (primarySharedLibrary abi buildPath printStdout targetName).filename
        = "lib" ++ targetName ++ ".so"
      ∧ (primarySharedLibrary abi buildPath printStdout targetName).path
          = pathJoin buildPath (rustFirstLine printStdout)
      ∧ ∀ otherReport,
          (primarySharedLibrary abi buildPath otherReport targetName).filename
            = (primarySharedLibrary abi buildPath printStdout targetName).filename :=
  ⟨rfl, rfl, fun _ => rfl⟩

theorem choosePick_none {pick : List String → Option String} {l : List String}
    (h : choosePick pick l = none) : l = [] := by
  unfold choosePick at h
  cases hp : pick l with
  | none =>
    rw [hp] at h
    dsimp only at h
    exact List.head?_eq_none_iff.mp h
  | some x =>
    rw [hp] at h
    dsimp only at h
    by_cases hc : l.contains x = true
    · rw [if_pos hc] at h
      cases h
    · rw [if_neg hc] at h
      exact List.head?_eq_none_iff.mp h

theorem choosePick_mem {pick : List String → Option String} {l : List String} {x : String}
    (h : choosePick pick l = some x) : x ∈ l := by
  unfold choosePick at h
  have hhead : ∀ y, l.head? = some y → y ∈ l := by
    intro y hy
    cases l with
    | nil => cases hy
    | cons a t => cases hy; exact List.mem_cons_self _ _
  cases hp : pick l with
  | none =>
    rw [hp] at h
    dsimp only at h
    exact hhead x h
  | some z =>
    rw [hp] at h
    dsimp only at h
    by_cases hc : l.contains z = true
    · rw [if_pos hc] at h
      cases h
      exact List.elem_iff.mp hc
    · rw [if_neg hc] at h
      exact hhead x h

theorem unprocessed_mem {m : List (String × Bool)} {d : String}
    (h : d ∈ unprocessedNames m) : (d, false) ∈ m := by
  unfold unprocessedNames at h
  rcases List.mem_map.mp h with ⟨e, he, hfst⟩
  rcases List.mem_filter.mp he with ⟨hem, hflag⟩
  have h2 : e.2 = false := by
    cases hb : e.2
    · rfl
    · rw [hb] at hflag; cases hflag
  have : e = (d, false) := by
    cases e
    simp only [Prod.mk.injEq]
    exact ⟨hfst, by simpa using h2⟩
  exact this ▸ hem

theorem unprocessed_nil {m : List (String × Bool)}
    (h : unprocessedNames m = []) : ∀ e ∈ m, e.2 = true := by
  intro e hem
  unfold unprocessedNames at h
  have hfilter : m.filter (fun e => !e.2) = [] := List.map_eq_nil_iff.mp h
  by_contra hb
  have h2 : e.2 = false := by
    cases hx : e.2 with
    | true => exact absurd hx hb
    | false => rfl
  have hmem : e ∈ m.filter (fun e => !e.2) := List.mem_filter.mpr ⟨hem, by rw [h2]; rfl⟩
  rw [hfilter] at hmem
  cases hmem

theorem keysOf_markProcessed (m : List (String × Bool)) (k : String) :
    keysOf (markProcessed m k) = keysOf m := by
  induction m with
  | nil => rfl
  | cons e rest ih =>
    show (if e.1 == k then (e.1, true) else e).1 :: keysOf (markProcessed rest k)
        = e.1 :: keysOf rest
    rw [ih]
    congr 1
    split <;> rfl

theorem mem_markProcessed_of_true {m : List (String × Bool)} {k n : String}
    (h : (n, true) ∈ m) : (n, true) ∈ markProcessed m k := by
  have := List.mem_map_of_mem (fun e => if e.1 == k then (e.1, true) else e) h
  simpa [markProcessed] using this

theorem markProcessed_target {m : List (String × Bool)} {k : String}
    (h : (k, false) ∈ m) : (k, true) ∈ markProcessed m k := by
  have := List.mem_map_of_mem (fun e => if e.1 == k then (e.1, true) else e) h
  simpa [markProcessed] using this

theorem mem_markProcessed_true_inv {m : List (String × Bool)} {k n : String}
    (h : (n, true) ∈ markProcessed m k) : (n, true) ∈ m ∨ n = k := by
  unfold markProcessed at h
  rcases List.mem_map.mp h with ⟨e, hem, heq⟩
  by_cases hc : (e.1 == k) = true
  · rw [if_pos hc] at heq
    right
    have h1 : e.1 = n := by
      have := congrArg Prod.fst heq
      simpa using this
    have h2 : e.1 = k := by simpa using hc
    rw [← h1, h2]
  · rw [if_neg hc] at heq
    left
    rw [← heq]
    exact hem

theorem orInsert_cases (m : List (String × Bool)) (k : String) :
    orInsert m k = m ∨ (orInsert m k = m ++ [(k, false)] ∧ k ∉ keysOf m) := by
  unfold orInsert
  by_cases h : m.any (fun e => e.1 == k) = true
  · left
    rw [if_pos h]
  · right
    rw [if_neg h]
    refine ⟨rfl, ?_⟩
    intro hk
    apply h
    rcases List.mem_map.mp hk with ⟨e, hem, he1⟩
    exact List.any_eq_true.mpr ⟨e, hem, by simp [he1]⟩

theorem mem_orInsert {m : List (String × Bool)} {k : String} {e : String × Bool}
    (h : e ∈ m) : e ∈ orInsert m k := by
  rcases orInsert_cases m k with hc | ⟨hc, _⟩ <;> rw [hc]
  · exact h
  · exact List.mem_append_left _ h

theorem orInsert_true_inv {m : List (String × Bool)} {k n : String}
    (h : (n, true) ∈ orInsert m k) : (n, true) ∈ m := by
  rcases orInsert_cases m k with hc | ⟨hc, _⟩ <;> rw [hc] at h
  · exact h
  · rcases List.mem_append.mp h with h1 | h1
    · exact h1
    · simp at h1

theorem orInsert_keys_nodup {m : List (String × Bool)} {k : String}
    (h : (keysOf m).Nodup) : (keysOf (orInsert m k)).Nodup := by
  rcases orInsert_cases m k with hc | ⟨hc, hk⟩ <;> rw [hc]
  · exact h
  · have hkeys : keysOf (m ++ [(k, false)]) = keysOf m ++ [k] := by
      simp [keysOf]
    rw [hkeys]
    simp [List.nodup_append, h, hk]

theorem mem_keys_orInsert_inv {m : List (String × Bool)} {k k' : String}
    (h : k' ∈ keysOf (orInsert m k)) : k' ∈ keysOf m ∨ k' = k := by
  rcases orInsert_cases m k with hc | ⟨hc, _⟩ <;> rw [hc] at h
  · exact Or.inl h
  · unfold keysOf at h
    rw [List.map_append] at h
    rcases List.mem_append.mp h with h1 | h1
    · exact Or.inl h1
    · right
      simpa using h1

theorem foldl_orInsert_mem {ns : List String} {m : List (String × Bool)} {e : String × Bool}
    (h : e ∈ m) : e ∈ ns.foldl orInsert m := by
  induction ns generalizing m with
  | nil => exact h
  | cons a t ih => exact ih (mem_orInsert h)

theorem foldl_orInsert_true_inv {ns : List String} {m : List (String × Bool)} {n : String}
    (h : (n, true) ∈ ns.foldl orInsert m) : (n, true) ∈ m := by
  induction ns generalizing m with
  | nil => exact h
  | cons a t ih => exact orInsert_true_inv (ih h)

theorem foldl_orInsert_keys_nodup {ns : List String} {m : List (String × Bool)}
    (h : (keysOf m).Nodup) : (keysOf (ns.foldl orInsert m)).Nodup := by
  induction ns generalizing m with
  | nil => exact h
  | cons a t ih => exact ih (orInsert_keys_nodup h)

theorem foldl_orInsert_keys_inv {ns : List String} {m : List (String × Bool)} {k : String}
    (h : k ∈ keysOf (ns.foldl orInsert m)) : k ∈ keysOf m ∨ k ∈ ns := by
  induction ns generalizing m with
  | nil => exact Or.inl h
  | cons a t ih =>
    rcases ih h with h1 | h1
    · rcases mem_keys_orInsert_inv h1 with h2 | h2
      · exact Or.inl h2
      · exact Or.inr (h2 ▸ List.mem_cons_self _ _)
    · exact Or.inr (List.mem_cons_of_mem _ h1)

theorem nodup_true_false {m : List (String × Bool)} (hnd : (keysOf m).Nodup) {n : String}
    (ht : (n, true) ∈ m) (hf : (n, false) ∈ m) : False := by
  induction m with
  | nil => cases ht
  | cons e rest ih =>
    have hnd' : e.1 ∉ keysOf rest ∧ (keysOf rest).Nodup := by
      have := hnd
      unfold keysOf at this
      rw [List.map_cons] at this
      exact List.nodup_cons.mp this
    cases List.mem_cons.mp ht with
    | inl h1 =>
      cases List.mem_cons.mp hf with
      | inl h2 =>
        have := h1.trans h2.symm
        cases this
      | inr h2 =>
        apply hnd'.1
        rw [← h1]
        exact List.mem_map_of_mem (fun e => e.1) h2
    | inr h1 =>
      cases List.mem_cons.mp hf with
      | inl h2 =>
        apply hnd'.1
        rw [← h2]
        exact List.mem_map_of_mem (fun e => e.1) h1
      | inr h2 => exact ih hnd'.2 h1 h2

theorem seedInsert_cases (m : List (String × Bool)) (d : String) :
    seedInsert m d = m ∨ (seedInsert m d = m ++ [(d, true)] ∧ d ∉ keysOf m) := by
  unfold seedInsert
  by_cases h : m.any (fun e => e.1 == d) = true
  · left
    rw [if_pos h]
  · right
    rw [if_neg h]
    refine ⟨rfl, ?_⟩
    intro hk
    apply h
    rcases List.mem_map.mp hk with ⟨e, hem, he1⟩
    exact List.any_eq_true.mpr ⟨e, hem, by simp [he1]⟩

theorem seedFold_spec :
    ∀ (names : List String) (m : List (String × Bool)),
      (∀ e ∈ m, e.2 = true) → (keysOf m).Nodup →
      (∀ e ∈ names.foldl seedInsert m, e.2 = true ∧ (e.1 ∈ names ∨ e ∈ m))
      ∧ (∀ d, d ∈ names ∨ (d, true) ∈ m → (d, true) ∈ names.foldl seedInsert m)
      ∧ (keysOf (names.foldl seedInsert m)).Nodup := by
  intro names
  induction names with
  | nil =>
    intro m htrue hnd
    exact ⟨fun e he => ⟨htrue e he, Or.inr he⟩,
      fun d hd => hd.elim (fun h => absurd h (List.not_mem_nil d)) id, hnd⟩
  | cons a t ih =>
    intro m htrue hnd
    have hstep := seedInsert_cases m a
    have htrue' : ∀ e ∈ seedInsert m a, e.2 = true := by
      intro e he
      rcases hstep with hc | ⟨hc, _⟩ <;> rw [hc] at he
      · exact htrue e he
      · rcases List.mem_append.mp he with h1 | h1
        · exact htrue e h1
        · simp only [List.mem_singleton] at h1
          rw [h1]
    have hnd' : (keysOf (seedInsert m a)).Nodup := by
      rcases hstep with hc | ⟨hc, hk⟩ <;> rw [hc]
      · exact hnd
      · have hkeys : keysOf (m ++ [(a, true)]) = keysOf m ++ [a] := by simp [keysOf]
        rw [hkeys]
        simp [List.nodup_append, hnd, hk]
    have hmema : (a, true) ∈ seedInsert m a := by
      unfold seedInsert
      by_cases hany : m.any (fun e => e.1 == a) = true
      · rw [if_pos hany]
        rcases List.any_eq_true.mp hany with ⟨e, hem, hea⟩
        have h1 : e.1 = a := by simpa using hea
        have h2 : e.2 = true := htrue e hem
        have he : e = (a, true) := by
          cases e
          simp only [Prod.mk.injEq]
          exact ⟨h1, h2⟩
        exact he ▸ hem
      · rw [if_neg hany]
        exact List.mem_append_right _ (List.mem_singleton.mpr rfl)
    obtain ⟨ih1, ih2, ih3⟩ := ih (seedInsert m a) htrue' hnd'
    refine ⟨?_, ?_, ih3⟩
    · intro e he
      obtain ⟨he2, hor⟩ := ih1 e he
      refine ⟨he2, ?_⟩
      rcases hor with h1 | h1
      · exact Or.inl (List.mem_cons_of_mem _ h1)
      · rcases hstep with hc | ⟨hc, _⟩
        · rw [hc] at h1
          exact Or.inr h1
        · rw [hc] at h1
          rcases List.mem_append.mp h1 with h2 | h2
          · exact Or.inr h2
          · simp only [List.mem_singleton] at h2
            left
            rw [h2]
            exact List.mem_cons_self _ _
    · intro d hd
      rcases hd with h1 | h1
      · rcases List.mem_cons.mp h1 with h2 | h2
        · exact h2 ▸ ih2 a (Or.inr hmema)
        · exact ih2 d (Or.inl h2)
      · refine ih2 d (Or.inr ?_)
        rcases hstep with hc | ⟨hc, _⟩ <;> rw [hc]
        · exact h1
        · exact List.mem_append_left _ h1

theorem seedProcessed_spec (names : List String) :
    (∀ e ∈ seedProcessed names, e.2 = true ∧ e.1 ∈ names)
      ∧ (∀ d ∈ names, (d, true) ∈ seedProcessed names)
      ∧ (keysOf (seedProcessed names)).Nodup := by
  obtain ⟨h1, h2, h3⟩ := seedFold_spec names [] (by intro e he; cases he) (by simp [keysOf])
  refine ⟨?_, ?_, h3⟩
  · intro e he
    obtain ⟨ha, hb⟩ := h1 e he
    exact ⟨ha, hb.elim id (fun h => absurd h (List.not_mem_nil e))⟩
  · intro d hd
    exact h2 d (Or.inl hd)

theorem inv_step_core {env : ResolverEnv} {abi : AndroidBuildTarget} {st : ResolverState}
    {dylib : String} (hinv : ResolverInv env abi st) (hdy : (dylib, false) ∈ st.found) :
    dylib ∉ st.emitted.map (fun l => l.filename) ++ st.warnings
      ∧ dylib ∉ env.androidDylibs := by
  constructor
  · intro hmem
    exact nodup_true_false hinv.keys_nodup (hinv.ew_true dylib hmem) hdy
  · intro hmem
    exact nodup_true_false hinv.keys_nodup (hinv.android_true dylib hmem) hdy

theorem inv_step_found {env : ResolverEnv} {abi : AndroidBuildTarget} {st : ResolverState}
    {dylib path : String} {needs : List String}
    (hinv : ResolverInv env abi st) (hdy : (dylib, false) ∈ st.found)
    (hfind : find_library_path env.searchPaths env.isFile dylib = some path) :
    ResolverInv env abi
      { found := needs.foldl orInsert (markProcessed st.found dylib)
        emitted := st.emitted ++ [{ abi := abi, path := path, filename := dylib }]
        warnings := st.warnings } := by
  obtain ⟨hnew, hnandroid⟩ := inv_step_core hinv hdy
  have hewmem : ∀ n,
      n ∈ (st.emitted ++ [({ abi := abi, path := path, filename := dylib } : SharedLibrary)]).map
            (fun l => l.filename) ++ st.warnings →
      n ∈ st.emitted.map (fun l => l.filename) ++ st.warnings ∨ n = dylib := by
    intro n hn
    rw [List.map_append] at hn
    rcases List.mem_append.mp hn with h1 | h1
    · rcases List.mem_append.mp h1 with h2 | h2
      · exact Or.inl (List.mem_append_left _ h2)
      · right
        simpa using h2
    · exact Or.inl (List.mem_append_right _ h1)
  refine
    { keys_nodup := ?_, ew_true := ?_, ew_nodup := ?_, android_true := ?_,
      ew_not_android := ?_, emit_found := ?_, proc_char := ?_ }
  · apply foldl_orInsert_keys_nodup
    rw [keysOf_markProcessed]
    exact hinv.keys_nodup
  · intro n hn
    rcases hewmem n hn with h1 | h1
    · exact foldl_orInsert_mem (mem_markProcessed_of_true (hinv.ew_true n h1))
    · subst h1
      exact foldl_orInsert_mem (markProcessed_target hdy)
  · show ((st.emitted ++ [({ abi := abi, path := path, filename := dylib } : SharedLibrary)]).map
        (fun l => l.filename) ++ st.warnings).Nodup
    rw [List.map_append]
    have hshape :
        (st.emitted.map (fun l => l.filename) ++ [dylib]) ++ st.warnings
          = st.emitted.map (fun l => l.filename) ++ dylib :: st.warnings := by
      simp
    show ((st.emitted.map (fun l => l.filename) ++ [dylib]) ++ st.warnings).Nodup
    rw [hshape, List.nodup_middle, List.nodup_cons]
    exact ⟨hnew, hinv.ew_nodup⟩
  · intro d hd
    exact foldl_orInsert_mem (mem_markProcessed_of_true (hinv.android_true d hd))
  · intro n hn
    rcases hewmem n hn with h1 | h1
    · exact hinv.ew_not_android n h1
    · subst h1
      exact hnandroid
  · intro l hl
    rcases List.mem_append.mp hl with h1 | h1
    · exact hinv.emit_found l h1
    · have : l = { abi := abi, path := path, filename := dylib } := by simpa using h1
      subst this
      exact ⟨hfind, rfl⟩
  · intro k hk
    have h1 := foldl_orInsert_true_inv hk
    rcases mem_markProcessed_true_inv h1 with h2 | h2
    · rcases hinv.proc_char k h2 with h3 | h3
      · exact Or.inl h3
      · right
        cases hfk : find_library_path env.searchPaths env.isFile k with
        | some q =>
          rw [hfk] at h3
          dsimp only
          rw [List.map_append]
          exact List.mem_append_left _ h3
        | none =>
          rw [hfk] at h3
          dsimp only
          exact h3
    · subst h2
      right
      rw [hfind]
      dsimp only
      rw [List.map_append]
      apply List.mem_append_right
      simp

theorem inv_step_notfound {env : ResolverEnv} {abi : AndroidBuildTarget} {st : ResolverState}
    {dylib : String}
    (hinv : ResolverInv env abi st) (hdy : (dylib, false) ∈ st.found)
    (hfind : find_library_path env.searchPaths env.isFile dylib = none) :
    ResolverInv env abi
      { found := markProcessed st.found dylib
        emitted := st.emitted
        warnings := st.warnings ++ [dylib] } := by
  obtain ⟨hnew, hnandroid⟩ := inv_step_core hinv hdy
  have hewmem : ∀ n,
      n ∈ st.emitted.map (fun l => l.filename) ++ (st.warnings ++ [dylib]) →
      n ∈ st.emitted.map (fun l => l.filename) ++ st.warnings ∨ n = dylib := by
    intro n hn
    rcases List.mem_append.mp hn with h1 | h1
    · exact Or.inl (List.mem_append_left _ h1)
    · rcases List.mem_append.mp h1 with h2 | h2
      · exact Or.inl (List.mem_append_right _ h2)
      · right
        simpa using h2
  refine
    { keys_nodup := ?_, ew_true := ?_, ew_nodup := ?_, android_true := ?_,
      ew_not_android := ?_, emit_found := ?_, proc_char := ?_ }
  · rw [keysOf_markProcessed]
    exact hinv.keys_nodup
  · intro n hn
    rcases hewmem n hn with h1 | h1
    · exact mem_markProcessed_of_true (hinv.ew_true n h1)
    · subst h1
      exact markProcessed_target hdy
  · show (st.emitted.map (fun l => l.filename) ++ (st.warnings ++ [dylib])).Nodup
    have hshape : st.emitted.map (fun l => l.filename) ++ (st.warnings ++ [dylib])
        = (st.emitted.map (fun l => l.filename) ++ st.warnings) ++ [dylib] := by
      simp
    rw [hshape]
    have : ((st.emitted.map (fun l => l.filename) ++ st.warnings) ++ dylib :: []).Nodup := by
      rw [List.nodup_middle, List.nodup_cons]
      exact ⟨by simpa using hnew, by simpa using hinv.ew_nodup⟩
    simpa using this
  · intro d hd
    exact mem_markProcessed_of_true (hinv.android_true d hd)
  · intro n hn
    rcases hewmem n hn with h1 | h1
    · exact hinv.ew_not_android n h1
    · subst h1
      exact hnandroid
  · intro l hl
    exact hinv.emit_found l hl
  · intro k hk
    rcases mem_markProcessed_true_inv hk with h2 | h2
    · rcases hinv.proc_char k h2 with h3 | h3
      · exact Or.inl h3
      · right
        cases hfk : find_library_path env.searchPaths env.isFile k with
        | some q =>
          rw [hfk] at h3
          dsimp only
          exact h3
        | none =>
          rw [hfk] at h3
          dsimp only
          exact List.mem_append_left _ h3
    · subst h2
      right
      rw [hfind]
      dsimp only
      apply List.mem_append_right
      simp

theorem resolveLoop_ok_inv (env : ResolverEnv) (abi : AndroidBuildTarget)
    (pick : List String → Option String) :
    ∀ (fuel : Nat) (st st' : ResolverState),
      ResolverInv env abi st →
      resolveLoop env abi pick fuel st = .ok st' →
      ResolverInv env abi st' ∧ ∀ e ∈ st'.found, e.2 = true := by
  intro fuel
  induction fuel with
  | zero =>
    intro st st' hinv h
    unfold resolveLoop at h
    cases hc : choosePick pick (unprocessedNames st.found) with
    | none =>
      rw [hc] at h
      dsimp only at h
      cases h
      exact ⟨hinv, unprocessed_nil (choosePick_none hc)⟩
    | some d =>
      rw [hc] at h
      dsimp only at h
      cases h
  | succ fuel ih =>
    intro st st' hinv h
    unfold resolveLoop at h
    cases hc : choosePick pick (unprocessedNames st.found) with
    | none =>
      rw [hc] at h
      dsimp only at h
      cases h
      exact ⟨hinv, unprocessed_nil (choosePick_none hc)⟩
    | some dylib =>
      rw [hc] at h
      dsimp only at h
      have hdy : (dylib, false) ∈ st.found := unprocessed_mem (choosePick_mem hc)
      cases hf : find_library_path env.searchPaths env.isFile dylib with
      | some path =>
        rw [hf] at h
        dsimp only at h
        cases hn : env.neededOf path with
        | error e =>
          rw [hn] at h
          dsimp only at h
          cases h
        | ok needs =>
          rw [hn] at h
          dsimp only at h
          exact ih _ _ (inv_step_found hinv hdy hf) h
      | none =>
        rw [hf] at h
        dsimp only at h
        exact ih _ _ (inv_step_notfound hinv hdy hf) h

theorem resolveTransitive_inv (env : ResolverEnv) (abi : AndroidBuildTarget)
    (pick : List String → Option String) (fuel : Nat) (primaryPath : String)
    (st : ResolverState)
    (h : resolveTransitive env abi pick fuel primaryPath = .ok st) :
    ResolverInv env abi st ∧ ∀ e ∈ st.found, e.2 = true := by
  unfold resolveTransitive at h
  cases hn : env.neededOf primaryPath with
  | error e =>
    rw [hn] at h
    dsimp only at h
    cases h
  | ok needs =>
    rw [hn] at h
    dsimp only at h
    obtain ⟨hseed1, hseed2, hseed3⟩ := seedProcessed_spec env.androidDylibs
    have hinv0 : ResolverInv env abi
        ⟨needs.foldl orInsert (seedProcessed env.androidDylibs), [], []⟩ := by
      refine
        { keys_nodup := foldl_orInsert_keys_nodup hseed3
          ew_true := by intro n hn'; simp at hn'
          ew_nodup := by simp
          android_true := fun d hd => foldl_orInsert_mem (hseed2 d hd)
          ew_not_android := by intro n hn'; simp at hn'
          emit_found := by intro l hl; simp at hl
          proc_char := ?_ }
      intro k hk
      exact Or.inl (hseed1 (k, true) (foldl_orInsert_true_inv hk)).2
    exact resolveLoop_ok_inv env abi pick fuel _ st hinv0 h

/-- Claim C3 (amended): for every unit and every iteration order the closure
records are pairwise distinct in architecture and filename, no library name is
emitted or warned twice, and no emitted or warned name is a platform-image
name seeded as processed; a closure record may however repeat the primary
record's architecture and filename pair. -/
theorem claim_C3_amended (env : ResolverEnv) (abi : AndroidBuildTarget)
    (pick : List String → Option String) (fuel : Nat) (primaryPath : String)
    (st : ResolverState)
    (h : resolveTransitive env abi pick fuel primaryPath = .ok st) :
    ((st.emitted.map (fun l => (l.abi, l.filename))).Nodup)
      ∧ ((st.emitted.map (fun l => l.filename)) ++ st.warnings).Nodup
      ∧ (∀ n ∈ (st.emitted.map (fun l => l.filename)) ++ st.warnings,
          n ∉ env.androidDylibs) := by
  obtain ⟨hinv, _⟩ := resolveTransitive_inv env abi pick fuel primaryPath st h
  refine ⟨?_, hinv.ew_nodup, hinv.ew_not_android⟩
  have hfn : (st.emitted.map (fun l => l.filename)).Nodup :=
    (List.nodup_append.mp hinv.ew_nodup).1
  apply List.Nodup.of_map Prod.snd
  rw [List.map_map]
  exact hfn

/-- Claim C3 witness: the amended theorem applied to the concrete run of the
resolver on the envC3 environment. -/
theorem claim_C3_witness :
    ((⟨[("libfoo.so", true)],
        [⟨AndroidBuildTarget.armV7a, "sp/libfoo.so", "libfoo.so"⟩], []⟩ : ResolverState).emitted.map
          (fun l => (l.abi, l.filename))).Nodup
      ∧ (((⟨[("libfoo.so", true)],
          [⟨AndroidBuildTarget.armV7a, "sp/libfoo.so", "libfoo.so"⟩], []⟩ : ResolverState).emitted.map
            (fun l => l.filename))
          ++ (⟨[("libfoo.so", true)],
              [⟨AndroidBuildTarget.armV7a, "sp/libfoo.so", "libfoo.so"⟩], []⟩ : ResolverState).warnings).Nodup
      ∧ (∀ n ∈ ((⟨[("libfoo.so", true)],
            [⟨AndroidBuildTarget.armV7a, "sp/libfoo.so", "libfoo.so"⟩], []⟩ : ResolverState).emitted.map
              (fun l => l.filename))
            ++ (⟨[("libfoo.so", true)],
                [⟨AndroidBuildTarget.armV7a, "sp/libfoo.so", "libfoo.so"⟩], []⟩ : ResolverState).warnings,
          n ∉ envC3.androidDylibs) :=
  claim_C3_amended envC3 AndroidBuildTarget.armV7a List.head? 2 "primary/libfoo.so"
    ⟨[("libfoo.so", true)], [⟨AndroidBuildTarget.armV7a, "sp/libfoo.so", "libfoo.so"⟩], []⟩ rfl

theorem mem_processedKeys {m : List (String × Bool)} {k : String} :
    k ∈ processedKeys m ↔ (k, true) ∈ m := by
  unfold processedKeys
  rw [List.mem_toFinset]
  constructor
  · intro h
    rcases List.mem_map.mp h with ⟨e, hem, he1⟩
    rcases List.mem_filter.mp hem with ⟨hm, hflag⟩
    have h2 : e.2 = true := by simpa using hflag
    have he : e = (k, true) := by
      cases e
      simp only [Prod.mk.injEq]
      exact ⟨he1, h2⟩
    exact he ▸ hm
  · intro h
    exact List.mem_map.mpr ⟨(k, true), List.mem_filter.mpr ⟨h, rfl⟩, rfl⟩

theorem processedKeys_subset_keys {m : List (String × Bool)} {k : String}
    (h : k ∈ processedKeys m) : k ∈ keysOf m :=
  List.mem_map_of_mem (fun e => e.1) (mem_processedKeys.mp h)

theorem processedKeys_mono_foldl {ns : List String} {m : List (String × Bool)} :
    processedKeys m ⊆ processedKeys (ns.foldl orInsert m) :=
  fun _ hk => mem_processedKeys.mpr (foldl_orInsert_mem (mem_processedKeys.mp hk))

theorem processedKeys_card_step {m : List (String × Bool)} {d : String}
    (hnd : (keysOf m).Nodup) (hdy : (d, false) ∈ m) (ns : List String) :
    (processedKeys m).card + 1 ≤ (processedKeys (ns.foldl orInsert (markProcessed m d))).card := by
  have hd_not : d ∉ processedKeys m := by
    intro hd
    exact nodup_true_false hnd (mem_processedKeys.mp hd) hdy
  have hins : insert d (processedKeys m)
      ⊆ processedKeys (ns.foldl orInsert (markProcessed m d)) := by
    intro k hk
    rcases Finset.mem_insert.mp hk with h1 | h1
    · subst h1
      exact mem_processedKeys.mpr (foldl_orInsert_mem (markProcessed_target hdy))
    · exact processedKeys_mono_foldl
        (mem_processedKeys.mpr (mem_markProcessed_of_true (mem_processedKeys.mp h1)))
  calc
    (processedKeys m).card + 1 = (insert d (processedKeys m)).card :=
      (Finset.card_insert_of_not_mem hd_not).symm
    _ ≤ _ := Finset.card_le_card hins

theorem resolveLoop_fuel (env : ResolverEnv) (abi : AndroidBuildTarget)
    (pick : List String → Option String) (U : Finset String)
    (hstep : ∀ n ∈ U, ∀ p, find_library_path env.searchPaths env.isFile n = some p →
      ∀ l, env.neededOf p = .ok l → ∀ x ∈ l, x ∈ U) :
    ∀ (fuel : Nat) (st : ResolverState),
      (keysOf st.found).Nodup →
      (∀ k ∈ keysOf st.found, k ∈ U) →
      U.card ≤ fuel + (processedKeys st.found).card →
      resolveLoop env abi pick fuel st ≠ .error .fuelExhausted
      ∧ ((∀ p, ∃ l, env.neededOf p = .ok l) →
          ∃ st', resolveLoop env abi pick fuel st = .ok st') := by
  intro fuel
  induction fuel with
  | zero =>
    intro st hnd hsub hcard
    have hnone : choosePick pick (unprocessedNames st.found) = none := by
      cases hc : choosePick pick (unprocessedNames st.found) with
      | none => rfl
      | some d =>
        exfalso
        have hdy : (d, false) ∈ st.found := unprocessed_mem (choosePick_mem hc)
        have hdk : d ∈ keysOf st.found := List.mem_map_of_mem (fun e => e.1) hdy
        have hPU : processedKeys st.found ⊆ U :=
          fun k hk => hsub k (processedKeys_subset_keys hk)
        have hPeq : processedKeys st.found = U :=
          Finset.eq_of_subset_of_card_le hPU (by simpa using hcard)
        have hdt : (d, true) ∈ st.found := mem_processedKeys.mp (hPeq ▸ hsub d hdk)
        exact nodup_true_false hnd hdt hdy
    constructor
    · intro hcontra
      unfold resolveLoop at hcontra
      rw [hnone] at hcontra
      cases hcontra
    · intro _
      refine ⟨st, ?_⟩
      unfold resolveLoop
      rw [hnone]
  | succ fuel ih =>
    intro st hnd hsub hcard
    cases hc : choosePick pick (unprocessedNames st.found) with
    | none =>
      constructor
      · intro hcontra
        unfold resolveLoop at hcontra
        rw [hc] at hcontra
        dsimp only at hcontra
        cases hcontra
      · intro _
        refine ⟨st, ?_⟩
        unfold resolveLoop
        rw [hc]
    | some dylib =>
      have hdy : (dylib, false) ∈ st.found := unprocessed_mem (choosePick_mem hc)
      have hdylibU : dylib ∈ U := hsub dylib (List.mem_map_of_mem (fun e => e.1) hdy)
      cases hf : find_library_path env.searchPaths env.isFile dylib with
      | some path =>
        cases hneed : env.neededOf path with
        | error e =>
          constructor
          · intro hcontra
            unfold resolveLoop at hcontra
            rw [hc] at hcontra
            dsimp only at hcontra
            rw [hf] at hcontra
            dsimp only at hcontra
            rw [hneed] at hcontra
            dsimp only at hcontra
            cases hcontra
          · intro hok
            obtain ⟨l, hl⟩ := hok path
            rw [hneed] at hl
            cases hl
        | ok needs =>
          have hred : resolveLoop env abi pick (fuel + 1) st
              = resolveLoop env abi pick fuel
                  { found := needs.foldl orInsert (markProcessed st.found dylib)
                    emitted := st.emitted
                      ++ [{ abi := abi, path := path, filename := dylib }]
                    warnings := st.warnings } := by
            conv_lhs => rw [resolveLoop.eq_def]
            dsimp only
            rw [hc]
            dsimp only
            rw [hf]
            dsimp only
            rw [hneed]
          have hnd1 : (keysOf (needs.foldl orInsert (markProcessed st.found dylib))).Nodup := by
            apply foldl_orInsert_keys_nodup
            rw [keysOf_markProcessed]
            exact hnd
          have hsub1 : ∀ k ∈ keysOf (needs.foldl orInsert (markProcessed st.found dylib)),
              k ∈ U := by
            intro k hk
            rcases foldl_orInsert_keys_inv hk with h1 | h1
            · rw [keysOf_markProcessed] at h1
              exact hsub k h1
            · exact hstep dylib hdylibU path hf needs hneed k h1
          have hcard1 : U.card ≤ fuel
              + (processedKeys (needs.foldl orInsert (markProcessed st.found dylib))).card := by
            have hstep1 := processedKeys_card_step hnd hdy needs
            omega
          obtain ⟨ih1, ih2⟩ := ih
            { found := needs.foldl orInsert (markProcessed st.found dylib)
              emitted := st.emitted ++ [{ abi := abi, path := path, filename := dylib }]
              warnings := st.warnings } hnd1 hsub1 hcard1
          constructor
          · rw [hred]
            exact ih1
          · intro hok
            obtain ⟨st', h'⟩ := ih2 hok
            exact ⟨st', by rw [hred]; exact h'⟩
      | none =>
        have hred : resolveLoop env abi pick (fuel + 1) st
            = resolveLoop env abi pick fuel
                { found := markProcessed st.found dylib
                  emitted := st.emitted
                  warnings := st.warnings ++ [dylib] } := by
          conv_lhs => rw [resolveLoop.eq_def]
          dsimp only
          rw [hc]
          dsimp only
          rw [hf]
        have hnd1 : (keysOf (markProcessed st.found dylib)).Nodup := by
          rw [keysOf_markProcessed]
          exact hnd
        have hsub1 : ∀ k ∈ keysOf (markProcessed st.found dylib), k ∈ U := by
          intro k hk
          rw [keysOf_markProcessed] at hk
          exact hsub k hk
        have hcard1 : U.card ≤ fuel + (processedKeys (markProcessed st.found dylib)).card := by
          have hstep1 := processedKeys_card_step hnd hdy []
          simp only [List.foldl_nil] at hstep1
          omega
        obtain ⟨ih1, ih2⟩ := ih
          { found := markProcessed st.found dylib
            emitted := st.emitted
            warnings := st.warnings ++ [dylib] } hnd1 hsub1 hcard1
        constructor
        · rw [hred]
          exact ih1
        · intro hok
          obtain ⟨st', h'⟩ := ih2 hok
          exact ⟨st', by rw [hred]; exact h'⟩

/-- Claim C4: the dependency-closure loop terminates.  Each iteration marks a
previously unprocessed name as processed and processed entries are never
unmarked, so for every finite universe of names closed under discovery, a
fuel bound equal to the universe's size is never exhausted — for any
iteration order, starting state and environment. -/
theorem claim_C4 (env : ResolverEnv) (abi : AndroidBuildTarget)
    (pick : List String → Option String) (primaryPath : String)
    (U : Finset String) (fuel : Nat)
    (hseed : ∀ d ∈ env.androidDylibs, d ∈ U)
    (hprim : ∀ l, env.neededOf primaryPath = .ok l → ∀ n ∈ l, n ∈ U)
    (hstep : ∀ n ∈ U, ∀ p, find_library_path env.searchPaths env.isFile n = some p →
      ∀ l, env.neededOf p = .ok l → ∀ x ∈ l, x ∈ U)
    (hfuel : U.card ≤ fuel) :
    resolveTransitive env abi pick fuel primaryPath ≠ .error ResolverErr.fuelExhausted := by
  unfold resolveTransitive
  cases hn : env.neededOf primaryPath with
  | error e =>
    dsimp only
    intro hcontra
    cases hcontra
  | ok needs =>
    dsimp only
    obtain ⟨hseed1, hseed2, hseed3⟩ := seedProcessed_spec env.androidDylibs
    have hnd0 : (keysOf (needs.foldl orInsert (seedProcessed env.androidDylibs))).Nodup :=
      foldl_orInsert_keys_nodup hseed3
    have hsub0 : ∀ k ∈ keysOf (needs.foldl orInsert (seedProcessed env.androidDylibs)),
        k ∈ U := by
      intro k hk
      rcases foldl_orInsert_keys_inv hk with h1 | h1
      · rcases List.mem_map.mp h1 with ⟨e, hem, he1⟩
        have hea := (hseed1 e hem).2
        rw [he1] at hea
        exact hseed k hea
      · exact hprim needs hn k h1
    exact (resolveLoop_fuel env abi pick U hstep fuel _ hnd0 hsub0
      (le_trans hfuel (Nat.le_add_right _ _))).1

/-- Claim C4 witness: the termination bound applied to the concrete envC3
environment, whose name universe has one element, with fuel 2. -/
theorem claim_C4_witness :
    resolveTransitive envC3 AndroidBuildTarget.armV7a List.head? 2 "primary/libfoo.so"
      ≠ .error ResolverErr.fuelExhausted :=
  claim_C4 envC3 AndroidBuildTarget.armV7a List.head? "primary/libfoo.so"
    {"libfoo.so"} 2
    (by intro d hd; simp [envC3] at hd)
    (by
      intro l hl n hn
      have hred : envC3.neededOf "primary/libfoo.so" = Except.ok ["libfoo.so"] := rfl
      rw [hred] at hl
      cases hl
      simp only [List.mem_singleton] at hn
      subst hn
      exact Finset.mem_singleton_self _)
    (by
      intro n hn p hp l hl x hx
      have hn' : n = "libfoo.so" := Finset.mem_singleton.mp hn
      subst hn'
      have hpred : find_library_path envC3.searchPaths envC3.isFile "libfoo.so"
          = some "sp/libfoo.so" := rfl
      rw [hpred] at hp
      cases hp
      have hred : envC3.neededOf "sp/libfoo.so" = Except.ok [] := rfl
      rw [hred] at hl
      cases hl
      cases hx)
    (by decide)

/-- Claim C8: when every readelf listing succeeds and the closure stays inside
a finite universe within the fuel bound, the resolver completes with a normal
result even when some discovered dependency name cannot be located in any
search path: such a name is recorded as a warning, is never emitted as a
record, and the unit's entry still appears in the final PackageResult
mapping. -/
theorem claim_C8 (env : ResolverEnv) (abi : AndroidBuildTarget)
    (pick : List String → Option String) (primaryPath : String)
    (U : Finset String) (fuel : Nat)
    (t : ApkTarget) (libs : List SharedLibrary)
    (units : List (ApkTarget × List SharedLibrary)) (finalApkDir : String)
    (hseed : ∀ d ∈ env.androidDylibs, d ∈ U)
    (hprim : ∀ l, env.neededOf primaryPath = .ok l → ∀ n ∈ l, n ∈ U)
    (hstep : ∀ n ∈ U, ∀ p, find_library_path env.searchPaths env.isFile n = some p →
      ∀ l, env.neededOf p = .ok l → ∀ x ∈ l, x ∈ U)
    (hfuel : U.card ≤ fuel)
    (hok : ∀ p, ∃ l, env.neededOf p = Except.ok l) :
    ∃ st, resolveTransitive env abi pick fuel primaryPath = .ok st
      ∧ (∀ missing ∈ keysOf st.found, missing ∉ env.androidDylibs →
          find_library_path env.searchPaths env.isFile missing = none →
          missing ∈ st.warnings ∧ missing ∉ st.emitted.map (fun l => l.filename))
      ∧ ((t, libs) ∈ units →
          (t.kind, t.name) ∈ (build_apks_map finalApkDir units).map (fun e => e.1)) := by
  obtain ⟨needs0, hn⟩ := hok primaryPath
  obtain ⟨hseed1, hseed2, hseed3⟩ := seedProcessed_spec env.androidDylibs
  have hnd0 : (keysOf (needs0.foldl orInsert (seedProcessed env.androidDylibs))).Nodup :=
    foldl_orInsert_keys_nodup hseed3
  have hsub0 : ∀ k ∈ keysOf (needs0.foldl orInsert (seedProcessed env.androidDylibs)),
      k ∈ U := by
    intro k hk
    rcases foldl_orInsert_keys_inv hk with h1 | h1
    · rcases List.mem_map.mp h1 with ⟨e, hem, he1⟩
      have hea := (hseed1 e hem).2
      rw [he1] at hea
      exact hseed k hea
    · exact hprim needs0 hn k h1
  obtain ⟨st, hst⟩ := (resolveLoop_fuel env abi pick U hstep fuel
    { found := needs0.foldl orInsert (seedProcessed env.androidDylibs)
      emitted := []
      warnings := [] } hnd0 hsub0 (le_trans hfuel (Nat.le_add_right _ _))).2 hok
  have htrans : resolveTransitive env abi pick fuel primaryPath = .ok st := by
    unfold resolveTransitive
    rw [hn]
    dsimp only
    exact hst
  obtain ⟨hinv, hall⟩ := resolveTransitive_inv env abi pick fuel primaryPath st htrans
  refine ⟨st, htrans, ?_, ?_⟩
  · intro missing hmem hnand hfind
    rcases List.mem_map.mp hmem with ⟨e, hem, he1⟩
    have he2 := hall e hem
    have hmt : (missing, true) ∈ st.found := by
      have he : e = (missing, true) := by
        cases e
        simp only [Prod.mk.injEq]
        exact ⟨he1, he2⟩
      exact he ▸ hem
    have hw : missing ∈ st.warnings := by
      rcases hinv.proc_char missing hmt with h1 | h1
      · exact absurd h1 hnand
      · rw [hfind] at h1
        dsimp only at h1
        exact h1
    refine ⟨hw, ?_⟩
    intro hmem2
    rcases List.mem_map.mp hmem2 with ⟨l, hlm, hlf⟩
    have hfound := (hinv.emit_found l hlm).1
    rw [hlf, hfind] at hfound
    cases hfound
  · intro hu
    exact List.mem_map.mpr
      ⟨((t.kind, t.name), apkFinalPath finalApkDir t), List.mem_map.mpr ⟨(t, libs), hu, rfl⟩, rfl⟩

/-- Claim C8 witness: the theorem applied to the concrete envC8 environment,
where the primary binary needs an unlocatable library. -/
theorem claim_C8_witness :
    ∃ st, resolveTransitive envC8 AndroidBuildTarget.arm64V8a List.head? 1 "primary/libapp.so"
          = .ok st
      ∧ (∀ missing ∈ keysOf st.found, missing ∉ envC8.androidDylibs →
          find_library_path envC8.searchPaths envC8.isFile missing = none →
          missing ∈ st.warnings ∧ missing ∉ st.emitted.map (fun l => l.filename))
      ∧ (((⟨RsTargetKind.bin, "app"⟩ : ApkTarget), ([] : List SharedLibrary))
            ∈ [((⟨RsTargetKind.bin, "app"⟩ : ApkTarget), ([] : List SharedLibrary))] →
          ((⟨RsTargetKind.bin, "app"⟩ : ApkTarget).kind, (⟨RsTargetKind.bin, "app"⟩ : ApkTarget).name)
            ∈ (build_apks_map "apk"
                [((⟨RsTargetKind.bin, "app"⟩ : ApkTarget), ([] : List SharedLibrary))]).map
                (fun e => e.1)) :=
  claim_C8 envC8 AndroidBuildTarget.arm64V8a List.head? "primary/libapp.so"
    {"libmissing.so"} 1 ⟨RsTargetKind.bin, "app"⟩ []
    [(⟨RsTargetKind.bin, "app"⟩, [])] "apk"
    (by intro d hd; simp [envC8] at hd)
    (by
      intro l hl n hn
      have hred : envC8.neededOf "primary/libapp.so" = Except.ok ["libmissing.so"] := rfl
      rw [hred] at hl
      cases hl
      simp only [List.mem_singleton] at hn
      subst hn
      exact Finset.mem_singleton_self _)
    (by
      intro n hn p hp l hl x hx
      have hpred : find_library_path envC8.searchPaths envC8.isFile n = none := rfl
      rw [hpred] at hp
      cases hp)
    (by decide)
    (by
      intro p
      by_cases hc : (p == "primary/libapp.so") = true
      · have hc' : p = "primary/libapp.so" := by simpa using hc
        subst hc'
        exact ⟨["libmissing.so"], rfl⟩
      · refine ⟨[], ?_⟩
        show (if (p == "primary/libapp.so") = true then Except.ok ["libmissing.so"]
            else Except.ok []) = Except.ok []
        rw [if_neg hc])

/-- Claim C2 witness: the amended search equation applied at a concrete
starting version on a file system where no path exists, yielding the
not-found error. -/
theorem claim_C2_witness :
    find_ndk_path 200 (fun n => toString n) (fun _ => false) = none :=
  (claim_C2_amended 200 (fun n => toString n) (fun _ => false)).2.mpr (fun _ _ => rfl)

/-- Claim C3 counterexample: a unit named foo whose primary binary lists its
own packaged filename as a NEEDED entry; the accumulated collection (primary
record plus closure records) holds two records with the same architecture and
filename. -/
theorem claim_C3_counterexample :
    resolveTransitive envC3 AndroidBuildTarget.armV7a List.head? 2 "primary/libfoo.so"
        = .ok ⟨[("libfoo.so", true)],
            [⟨AndroidBuildTarget.armV7a, "sp/libfoo.so", "libfoo.so"⟩], []⟩
      ∧ (primarySharedLibrary AndroidBuildTarget.armV7a "primary" "libfoo.so\n" "foo").path
          = "primary/libfoo.so"
      ∧ ¬ ((unitSharedLibraries
              (primarySharedLibrary AndroidBuildTarget.armV7a "primary" "libfoo.so\n" "foo")
              ⟨[("libfoo.so", true)],
                [⟨AndroidBuildTarget.armV7a, "sp/libfoo.so", "libfoo.so"⟩], []⟩).map
            (fun l => (l.abi, l.filename))).Nodup :=
  ⟨rfl, rfl, by decide⟩

/-- Claim C6: merging one glue-inject value into another concatenates each of
the five section accumulators, the first operand's text followed by the
second's; merging never overwrites previously accumulated content. -/
theorem claim_C6 (a b : Inject) :
    (a.add b).imports = a.imports ++ b.imports
      ∧ (a.add b).main_activity.body = a.main_activity.body ++ b.main_activity.body
      ∧ (a.add b).main_activity.on_create = a.main_activity.on_create ++ b.main_activity.on_create
      ∧ (a.add b).main_activity.on_resume = a.main_activity.on_resume ++ b.main_activity.on_resume
      ∧ (a.add b).main_activity.on_pause = a.main_activity.on_pause ++ b.main_activity.on_pause :=
  ⟨rfl, rfl, rfl, rfl, rfl⟩

end CargoQuadApk
